import Mathlib

/-!
Verification of the hybrid-retrieval core of the RAG-PROJECT repository.

The Python sources embedded here are:
* `app/search/hybrid_search.py` — tokenizer, `BM25LexicalIndex`
  (`build` / `load` / `search`), `reciprocal_rank_fusion`, and the
  `HybridSearch` orchestrator;
* `app/search/semantic_adapter.py` — `_embed`, `make_client`,
  `semantic_search`;
* `app/services/retrieval.py` — `retrieve`.

Modelling conventions:
* Python floats are modelled as `ℚ`; every score manipulated by the code is
  either an opaque ranker output or a sum of reciprocals `1/(kappa+rank)`,
  so exact rational arithmetic captures the order-theoretic behaviour.
* Python `int` is modelled as `Int`; list slicing `l[:k]` (which treats a
  negative `k` as "drop the last `-k` elements") is modelled by `pyslice`.
* CPython's `sorted(xs, key=f, reverse=True)` is a stable descending sort:
  its output is the unique permutation of `xs` ordered by
  (key descending, original position ascending).  It is modelled by an
  insertion sort over position-tagged elements using exactly that total
  order.
* Python dicts are modelled as association lists where a later binding
  shadows an earlier one (`dictLookup`), matching dict-comprehension
  semantics for duplicate keys.
* CPython builds the id pool of `reciprocal_rank_fusion` as a `set`, whose
  iteration order is hash-dependent and unspecified.  The fusion core
  `rrfAux` therefore takes the enumeration order of that set as an explicit
  argument; theorems quantify over all enumerations of the id pool, and
  `reciprocal_rank_fusion` fixes one canonical enumeration.
* The third-party `rank_bm25.BM25Okapi` fitted model is abstracted by a
  `fit` function producing an opaque `BM25Model` (only `get_scores` is ever
  used by the repository).  Its constructor ends with
  `self.avgdl = num_doc / self.corpus_size`, a division by the number of
  documents, so constructing it over an empty corpus raises
  `ZeroDivisionError`; `bm25Okapi` models exactly that guard.
-/

namespace RAG

/-- A word character for the tokenizer's `\w` class (letters, digits,
underscore), as used by `re.findall(r"\w+", ...)` on ASCII input. -/
def isWordChar (c : Char) : Bool := c.isAlphanum || c == '_'

/-- One step of splitting a character list into maximal word-character runs:
the accumulator holds the run in progress and the finished tokens. -/
def tokStep (c : Char) (acc : List Char × List String) : List Char × List String :=
  if isWordChar c then (c :: acc.1, acc.2)
  else ([], if acc.1.isEmpty then acc.2 else String.mk acc.1 :: acc.2)

/-- `_tokenize` from `hybrid_search.py`:
`re.findall(r"\w+", (text or "").lower())` — lower-case the text (modelled
character-wise over the string's character list, which agrees with
`str.lower()` on ASCII) and return the maximal runs of word characters, in
order. -/
def tokenize (text : String) : List String :=
  let p := (text.data.map Char.toLower).foldr tokStep ([], [])
  if p.1.isEmpty then p.2 else String.mk p.1 :: p.2

/-- The `Chunk` dataclass of `hybrid_search.py`: id, text, metadata. -/
structure Chunk where
  id : String
  text : String
  metadata : List (String × String)
deriving DecidableEq, Repr

/-- One record of the list returned by `HybridSearch.search`:
`{"id": id, "score": score, "text": text, "metadata": metadata}`. -/
structure SearchRec where
  id : String
  score : ℚ
  text : String
  metadata : List (String × String)
deriving DecidableEq, Repr

/-- Python list slicing `l[:k]` for an `int` index `k`: a nonnegative `k`
keeps the first `k` elements, a negative `k` drops the last `-k`. -/
def pyslice (k : Int) (l : List α) : List α :=
  if 0 ≤ k then l.take k.toNat else l.take (l.length - (-k).toNat)

/-- Lookup in a Python dict represented as an association list of its
assignments in order: a later binding shadows an earlier one. -/
def dictLookup (m : List (String × β)) (k : String) : Option β :=
  match m with
  | [] => none
  | p :: t =>
    match dictLookup t k with
    | some v => some v
    | none => if k = p.1 then some p.2 else none

/-- Tag each element of a list with its position, starting at `n`. -/
def withIdx (n : Nat) : List α → List (Nat × α)
  | [] => []
  | a :: t => (n, a) :: withIdx (n + 1) t

/-- The total order realising CPython's `sorted(pairs, key=lambda kv: kv[1],
reverse=True)` on position-tagged `(id, score)` pairs: score descending,
position ascending on ties (stability). -/
def pairRel (a b : Nat × (String × ℚ)) : Prop :=
  b.2.2 < a.2.2 ∨ (a.2.2 = b.2.2 ∧ a.1 ≤ b.1)

instance : DecidableRel pairRel := fun a b =>
  inferInstanceAs (Decidable (b.2.2 < a.2.2 ∨ (a.2.2 = b.2.2 ∧ a.1 ≤ b.1)))

instance : IsTotal (Nat × (String × ℚ)) pairRel := by
  constructor
  intro a b
  rcases lt_trichotomy a.2.2 b.2.2 with h | h | h
  · exact Or.inr (Or.inl h)
  · rcases Nat.le_total a.1 b.1 with h' | h'
    · exact Or.inl (Or.inr ⟨h, h'⟩)
    · exact Or.inr (Or.inr ⟨h.symm, h'⟩)
  · exact Or.inl (Or.inl h)

instance : IsTrans (Nat × (String × ℚ)) pairRel := by
  constructor
  intro a b c hab hbc
  rcases hab with h | ⟨he, hi⟩ <;> rcases hbc with h' | ⟨he', hi'⟩
  · exact Or.inl (lt_trans h' h)
  · exact Or.inl (he' ▸ h)
  · exact Or.inl (he ▸ h')
  · exact Or.inr ⟨he.trans he', hi.trans hi'⟩

/-- Stable descending sort of `(id, score)` pairs by score, modelling
`sorted(fused.items(), key=lambda kv: kv[1], reverse=True)`. -/
def pyStableSortDesc (l : List (String × ℚ)) : List (String × ℚ) :=
  ((withIdx 0 l).insertionSort pairRel).map Prod.snd

/-- The total order realising
`sorted(range(len(scores)), key=lambda i: scores[i], reverse=True)`:
score descending, original index ascending on ties (the elements being the
indices themselves, stability and index order coincide). -/
def bm25Rel (scores : List ℚ) (i j : Nat) : Prop :=
  scores.getD j 0 < scores.getD i 0 ∨ (scores.getD i 0 = scores.getD j 0 ∧ i ≤ j)

instance (scores : List ℚ) : DecidableRel (bm25Rel scores) := fun i j =>
  inferInstanceAs
    (Decidable (scores.getD j 0 < scores.getD i 0 ∨
      (scores.getD i 0 = scores.getD j 0 ∧ i ≤ j)))

instance (scores : List ℚ) : IsTotal Nat (bm25Rel scores) := by
  constructor
  intro i j
  rcases lt_trichotomy (scores.getD i 0) (scores.getD j 0) with h | h | h
  · exact Or.inr (Or.inl h)
  · rcases Nat.le_total i j with h' | h'
    · exact Or.inl (Or.inr ⟨h, h'⟩)
    · exact Or.inr (Or.inr ⟨h.symm, h'⟩)
  · exact Or.inl (Or.inl h)

instance (scores : List ℚ) : IsTrans Nat (bm25Rel scores) := by
  constructor
  intro a b c hab hbc
  rcases hab with h | ⟨he, hi⟩ <;> rcases hbc with h' | ⟨he', hi'⟩
  · exact Or.inl (lt_trans h' h)
  · exact Or.inl (he' ▸ h)
  · exact Or.inl (he ▸ h')
  · exact Or.inr ⟨he.trans he', hi.trans hi'⟩

/-- `idxs = sorted(range(len(scores)), key=lambda i: scores[i], reverse=True)`
from `BM25LexicalIndex.search`. -/
def rankIndices (scores : List ℚ) : List Nat :=
  (List.range scores.length).insertionSort (bm25Rel scores)

/-- The fitted `rank_bm25.BM25Okapi` model, abstracted to the single method
the repository calls: `get_scores(query_tokens)`, one score per corpus
document. -/
structure BM25Model where
  scoresOf : List String → List ℚ

/-- `BM25Okapi(corpus)`: the constructor of the third-party model.  Its
`_initialize` ends with `self.avgdl = num_doc / self.corpus_size` where
`corpus_size` counts the documents, so an empty corpus raises
`ZeroDivisionError`; otherwise the fitted model is an opaque function of the
token corpus, abstracted by `fit`. -/
def bm25Okapi (fit : List (List String) → BM25Model) (corpus : List (List String)) :
    Except String BM25Model :=
  if corpus.isEmpty then Except.error "ZeroDivisionError: division by zero"
  else Except.ok (fit corpus)

/-- The state of `BM25LexicalIndex`: `bm25`, `doc_tokens`, `chunks`,
`id_to_idx`. -/
structure LexState where
  bm25 : Option BM25Model
  doc_tokens : List (List String)
  chunks : List Chunk
  idToIdx : List (String × Nat)

/-- `{c.id: i for i, c in enumerate(self.chunks)}`. -/
def idIdxOf (chunks : List Chunk) : List (String × Nat) :=
  (withIdx 0 chunks).map (fun p => (p.2.id, p.1))

/-- What `BM25LexicalIndex.build` pickles to `persist_path`:
`{"chunks": self.chunks, "doc_tokens": self.doc_tokens}`. -/
structure Snapshot where
  chunks : List Chunk
  doc_tokens : List (List String)

namespace BM25LexicalIndex

/-- `BM25LexicalIndex.build(chunks)`: tokenize every chunk text, fit the
BM25 model over the token corpus, record the id→index map.  The `Except`
propagates the `ZeroDivisionError` of `BM25Okapi` on an empty corpus. -/
def build (fit : List (List String) → BM25Model) (chunks : List Chunk) :
    Except String LexState :=
  let toks := chunks.map (fun c => tokenize c.text)
  (bm25Okapi fit toks).map (fun m => ⟨some m, toks, chunks, idIdxOf chunks⟩)

/-- The snapshot `build` writes when given a persist path (pickling is
modelled as the identity on the snapshot data). -/
def persistOf (st : LexState) : Snapshot := ⟨st.chunks, st.doc_tokens⟩

/-- `BM25LexicalIndex.load(persist_path)`: restore `chunks` and
`doc_tokens` from the snapshot and re-fit `BM25Okapi` over the stored token
corpus. -/
def load (fit : List (List String) → BM25Model) (snap : Snapshot) :
    Except String LexState :=
  (bm25Okapi fit snap.doc_tokens).map
    (fun m => ⟨some m, snap.doc_tokens, snap.chunks, idIdxOf snap.chunks⟩)

/-- `BM25LexicalIndex.search(query, top_k)`: `[]` when unbuilt, otherwise
score every document, take the stably-descending-sorted indices, slice to
`top_k`, and read back `(chunk_id, score)` pairs. -/
def search (st : LexState) (query : String) (top_k : Int) : List (String × ℚ) :=
  match st.bm25 with
  | none => []
  | some model =>
    let scores := model.scoresOf (tokenize query)
    (pyslice top_k (rankIndices scores)).map
      (fun i => ((st.chunks.getD i ⟨"", "", []⟩).id, scores.getD i 0))

end BM25LexicalIndex

/-- `{doc_id: rank for rank, (doc_id, _) in enumerate(L, start=1)}` as an
association list starting at rank `n`; with `dictLookup` a duplicated id
keeps its last rank, exactly as in the dict comprehension. -/
def rankMapFrom (n : Nat) : List (String × ℚ) → List (String × Nat)
  | [] => []
  | p :: t => (p.1, n) :: rankMapFrom (n + 1) t

/-- The rank map of one input list (1-based ranks). -/
def rankMapOf (L : List (String × ℚ)) : List (String × Nat) := rankMapFrom 1 L

/-- The pool of ids appearing in at least one input list, in one canonical
enumeration (the CPython `set` iterates it in an unspecified order;
theorems quantify over permutations of this list). -/
def allIdsOf (lists : List (List (String × ℚ))) : List String :=
  ((lists.map (fun L => L.map Prod.fst)).flatten).dedup

/-- The inner loop of `reciprocal_rank_fusion`: starting from `0.0`, add
`1.0 / (kappa + r)` for every rank map containing the id. -/
def fusedScoreOf (rankMaps : List (List (String × Nat))) (kappa : Int) (id : String) : ℚ :=
  rankMaps.foldl
    (fun acc (m : List (String × Nat)) =>
      match dictLookup m id with
      | some r => acc + 1 / ((kappa : ℚ) + (r : ℚ))
      | none => acc) 0

/-- `reciprocal_rank_fusion` with the enumeration `order` of the id set made
explicit: build the rank maps, score every id of the pool, stable-sort by
fused score descending, slice to `top_k`. -/
def rrfAux (order : List String) (lists : List (List (String × ℚ)))
    (kappa top_k : Int) : List (String × ℚ) :=
  let rankMaps := lists.map rankMapOf
  let fused := order.map (fun id => (id, fusedScoreOf rankMaps kappa id))
  pyslice top_k (pyStableSortDesc fused)

/-- `reciprocal_rank_fusion(lists, kappa, top_k)` with the canonical pool
enumeration. -/
def reciprocal_rank_fusion (lists : List (List (String × ℚ)))
    (kappa top_k : Int) : List (String × ℚ) :=
  rrfAux (allIdsOf lists) lists kappa top_k

/-- `self.chunk_store.get(cid, Chunk(cid, "", {}))` applied over a ranked
pair list: the rehydration comprehension shared by every branch of
`HybridSearch.search`. -/
def rehydrate (store : List (String × Chunk)) (pairs : List (String × ℚ)) :
    List SearchRec :=
  pairs.map (fun p =>
    let c := (dictLookup store p.1).getD ⟨p.1, "", []⟩
    ⟨p.1, p.2, c.text, c.metadata⟩)

/-- The ranked `(id, score)` list each branch of `HybridSearch.search`
rehydrates: the semantic list, the lexical list, or (any other mode string)
the RRF fusion of both pools (`max(top_k, 20)` semantic,
`max(top_k, 50)` lexical, `kappa=60`). -/
def rankedPairs (semFn : String → Int → List (String × ℚ)) (lex : LexState)
    (order : List String) (query : String) (top_k : Int) (mode : String) :
    List (String × ℚ) :=
  if mode = "semantic" then semFn query top_k
  else if mode = "lexical" then BM25LexicalIndex.search lex query top_k
  else
    rrfAux order
      [semFn query (max top_k 20), BM25LexicalIndex.search lex query (max top_k 50)]
      60 top_k

/-- `HybridSearch.search(query, top_k, mode)` with the fusion pool
enumeration `order` explicit. -/
def hybridSearchWithOrder (semFn : String → Int → List (String × ℚ))
    (lex : LexState) (store : List (String × Chunk)) (order : List String)
    (query : String) (top_k : Int) (mode : String) : List SearchRec :=
  rehydrate store (rankedPairs semFn lex order query top_k mode)

/-- `HybridSearch.search` with the canonical pool enumeration. -/
def HybridSearch.search (semFn : String → Int → List (String × ℚ))
    (lex : LexState) (store : List (String × Chunk))
    (query : String) (top_k : Int) (mode : String) : List SearchRec :=
  hybridSearchWithOrder semFn lex store
    (allIdsOf
      [semFn query (max top_k 20), BM25LexicalIndex.search lex query (max top_k 50)])
    query top_k mode

/-- The configuration values `semantic_search` reads from `app.config`:
`PINECONE_API_KEY` (`Optional[str] = None`), `PINECONE_INDEX_NAME` and
`PINECONE_NAMESPACE` (plain strings). -/
structure SemSettings where
  apiKey : Option String
  indexName : String
  namespc : String

/-- Python truthiness of an `Optional[str]`: falsy iff `None` or `""`. -/
def optStrFalsy : Option String → Bool
  | none => true
  | some s => s = ""

/-- `make_client()`: `None` when `settings.PINECONE_API_KEY` is falsy,
otherwise a Pinecone client (the client itself carries no data we use). -/
def make_client (st : SemSettings) : Option Unit :=
  if optStrFalsy st.apiKey then none else some ()

/-- `index_name = index_name or settings.PINECONE_INDEX_NAME`. -/
def resolvedIndexName (st : SemSettings) (arg : Option String) : String :=
  if optStrFalsy arg then st.indexName else arg.getD ""

/-- `namespace = namespace or settings.PINECONE_NAMESPACE`. -/
def resolvedNamespace (st : SemSettings) (arg : Option String) : String :=
  if optStrFalsy arg then st.namespc else arg.getD ""

/-- `_embed(text)` from `semantic_adapter.py`: raises
`RuntimeError("SentenceTransformer not available. ...")` when the module
failed to construct `_EMBEDDER`, otherwise encodes the text. -/
def _embed (embedder : Option (String → List ℚ)) (text : String) :
    Except String (List ℚ) :=
  match embedder with
  | none => Except.error "SentenceTransformer not available. Please install or wire your embedder."
  | some e => Except.ok (e text)

/-- `semantic_search(query, top_k, index_name, namespace)`:
returns `[]` when the client is unconfigured or the resolved index name is
falsy; otherwise embeds the query (which raises when the embedder is
unavailable), queries the index (`queryFn`, abstract: index name, namespace,
vector, top_k ↦ matches), and keeps the matches with truthy ids. -/
def semantic_search (embedder : Option (String → List ℚ))
    (queryFn : String → String → List ℚ → Int → List (String × ℚ))
    (st : SemSettings) (query : String) (top_k : Int)
    (index_name namespace_ : Option String) :
    Except String (List (String × ℚ)) :=
  match make_client st with
  | none => Except.ok []
  | some _ =>
    let iname := resolvedIndexName st index_name
    let ns := resolvedNamespace st namespace_
    if iname = "" then Except.ok []
    else
      match _embed embedder query with
      | Except.error e => Except.error e
      | Except.ok emb =>
        Except.ok ((queryFn iname ns emb top_k).filter (fun p => ¬ p.1 = ""))

/-- The `_HYBRID` global of `app/services/retrieval.py`: a lexical index and
the registered chunk store. -/
structure HybridCtx where
  lex : LexState
  store : List (String × Chunk)

/-- `retrieve(query, top_k, mode)` from `app/services/retrieval.py`:
empty query short-circuits to `[]`; with no `_HYBRID` yet, fall back to the
semantic ranker rehydrated from the raw `_CHUNKS` registry; otherwise
delegate to `HybridSearch.search` with `top_k` passed through unchanged. -/
def retrieve (semFn : String → Int → List (String × ℚ))
    (hybrid : Option HybridCtx) (registered : List Chunk)
    (query : String) (top_k : Int) (mode : String) : List SearchRec :=
  if query = "" then []
  else
    match hybrid with
    | none =>
      (semFn query top_k).map (fun p =>
        let c := dictLookup (registered.map (fun c => (c.id, c))) p.1
        ⟨p.1, p.2, ((c.map Chunk.text).getD ""), ((c.map Chunk.metadata).getD [])⟩)
    | some ctx => HybridSearch.search semFn ctx.lex ctx.store query top_k mode


/-! ### Basic lemmas about the Python-semantics helpers -/

theorem pyslice_nonneg {k : Int} (h : 0 ≤ k) (l : List α) :
    pyslice k l = l.take k.toNat := by
  simp [pyslice, h]

theorem pyslice_sublist (k : Int) (l : List α) : (pyslice k l).Sublist l := by
  unfold pyslice
  split <;> exact List.take_sublist _ _

theorem pyslice_map (k : Int) (f : α → β) (l : List α) :
    pyslice k (l.map f) = (pyslice k l).map f := by
  unfold pyslice
  rw [List.length_map]
  split <;> rw [List.map_take]

theorem withIdx_map_snd (l : List α) : ∀ n, (withIdx n l).map Prod.snd = l := by
  induction l with
  | nil => intro n; rfl
  | cons a t ih => intro n; simp [withIdx, ih]

theorem pyStableSortDesc_perm (l : List (String × ℚ)) :
    (pyStableSortDesc l).Perm l := by
  have h := (List.perm_insertionSort pairRel (withIdx 0 l)).map Prod.snd
  rw [withIdx_map_snd l 0] at h
  exact h

theorem pyStableSortDesc_sorted (l : List (String × ℚ)) :
    (pyStableSortDesc l).Pairwise (fun a b => b.2 ≤ a.2) := by
  have h := List.sorted_insertionSort pairRel (withIdx 0 l)
  refine List.Pairwise.map Prod.snd ?_ h
  intro a b hab
  rcases hab with h' | ⟨h', _⟩
  · exact le_of_lt h'
  · exact le_of_eq h'.symm

theorem pairwise_lt_of_pairwise_le_nodup {l : List (String × ℚ)}
    (hle : l.Pairwise (fun a b => b.2 ≤ a.2)) (hnd : (l.map Prod.snd).Nodup) :
    l.Pairwise (fun a b => b.2 < a.2) := by
  have hne : l.Pairwise (fun a b => a.2 ≠ b.2) := (List.pairwise_map).mp hnd
  have := hle.and hne
  exact this.imp (fun h => lt_of_le_of_ne h.1 (Ne.symm h.2))

theorem pyStableSortDesc_eq_of_strict {l l' : List (String × ℚ)}
    (hperm : l.Perm l') (hs : l'.Pairwise (fun a b => b.2 < a.2)) :
    pyStableSortDesc l = l' := by
  have hp : (pyStableSortDesc l).Perm l' := (pyStableSortDesc_perm l).trans hperm
  have hnd' : (l'.map Prod.snd).Nodup := by
    have : l'.Pairwise (fun a b => a.2 ≠ b.2) := hs.imp (fun h => (ne_of_lt h).symm)
    exact (List.pairwise_map).mpr this
  have hnd : ((pyStableSortDesc l).map Prod.snd).Nodup :=
    (hp.map Prod.snd).nodup_iff.mpr hnd'
  have hstrict : (pyStableSortDesc l).Pairwise (fun a b => b.2 < a.2) :=
    pairwise_lt_of_pairwise_le_nodup (pyStableSortDesc_sorted l) hnd
  haveI : IsAntisymm (String × ℚ) (fun a b => b.2 < a.2) :=
    ⟨fun a b h1 h2 => absurd (lt_trans h1 h2) (lt_irrefl _)⟩
  exact List.eq_of_perm_of_sorted hp hstrict hs

theorem rankIndices_perm (scores : List ℚ) :
    (rankIndices scores).Perm (List.range scores.length) :=
  List.perm_insertionSort _ _

theorem rankIndices_sorted (scores : List ℚ) :
    (rankIndices scores).Pairwise (bm25Rel scores) :=
  List.sorted_insertionSort _ _


/-! ### Rank maps and fused scores -/

theorem dictLookup_rankMapFrom {L : List (String × ℚ)}
    (hnd : (L.map Prod.fst).Nodup) (id : String) :
    ∀ n, dictLookup (rankMapFrom n L) id =
      if id ∈ L.map Prod.fst then some ((L.map Prod.fst).indexOf id + n) else none := by
  induction L with
  | nil => intro n; simp [rankMapFrom, dictLookup]
  | cons p t ih =>
    intro n
    simp only [List.map_cons, List.nodup_cons] at hnd
    have ihn := ih hnd.2 (n + 1)
    simp only [rankMapFrom, dictLookup, ihn, List.map_cons]
    by_cases hm : id ∈ t.map Prod.fst
    · have hne' : p.1 ≠ id := fun h => hnd.1 (h ▸ hm)
      rw [if_pos hm, if_pos (List.mem_cons_of_mem _ hm), List.indexOf_cons_ne _ hne']
      simp only [Option.some.injEq]
      omega
    · rw [if_neg hm]
      by_cases he : id = p.1
      · subst he
        rw [if_pos rfl, if_pos (List.mem_cons_self _ _), List.indexOf_cons_self]
        simp
      · have hnm : ¬ id ∈ p.1 :: t.map Prod.fst := by
          intro h
          rcases List.mem_cons.mp h with h' | h'
          · exact he h'
          · exact hm h'
        rw [if_neg hnm, if_neg he]

theorem dictLookup_rankMapOf {L : List (String × ℚ)}
    (hnd : (L.map Prod.fst).Nodup) (id : String) :
    dictLookup (rankMapOf L) id =
      if id ∈ L.map Prod.fst then some ((L.map Prod.fst).indexOf id + 1) else none :=
  dictLookup_rankMapFrom hnd id 1

theorem fusedScoreOf_eq_sum (maps : List (List (String × Nat))) (kappa : Int)
    (id : String) :
    fusedScoreOf maps kappa id =
      (maps.map (fun m =>
        match dictLookup m id with
        | some r => 1 / ((kappa : ℚ) + (r : ℚ))
        | none => 0)).sum := by
  have key : ∀ (ms : List (List (String × Nat))) (acc : ℚ),
      ms.foldl
        (fun acc (m : List (String × Nat)) =>
          match dictLookup m id with
          | some r => acc + 1 / ((kappa : ℚ) + (r : ℚ))
          | none => acc) acc =
      acc + (ms.map (fun m =>
        match dictLookup m id with
        | some r => 1 / ((kappa : ℚ) + (r : ℚ))
        | none => 0)).sum := by
    intro ms
    induction ms with
    | nil => intro acc; simp
    | cons m t ih =>
      intro acc
      simp only [List.foldl_cons, List.map_cons, List.sum_cons, ih]
      cases dictLookup m id with
      | none => simp
      | some r => simp; ring
  have h0 := key maps 0
  rw [zero_add] at h0
  exact h0

/-- The claim-side RRF score formula: the sum, over the input lists
containing the id, of `1/(kappa + rank)` with 1-based ranks. -/
def rrfSpecScore (lists : List (List (String × ℚ))) (kappa : Int) (id : String) : ℚ :=
  (lists.map (fun L =>
    if id ∈ L.map Prod.fst
    then 1 / ((kappa : ℚ) + (((L.map Prod.fst).indexOf id + 1 : Nat) : ℚ))
    else 0)).sum

theorem fusedScoreOf_spec (lists : List (List (String × ℚ))) (kappa : Int)
    (id : String) (hnd : ∀ L ∈ lists, (L.map Prod.fst).Nodup) :
    fusedScoreOf (lists.map rankMapOf) kappa id = rrfSpecScore lists kappa id := by
  rw [fusedScoreOf_eq_sum]
  unfold rrfSpecScore
  rw [List.map_map]
  refine congrArg List.sum (List.map_congr_left ?_)
  intro L hL
  simp only [Function.comp_apply, dictLookup_rankMapOf (hnd L hL) id]
  by_cases hm : id ∈ L.map Prod.fst
  · simp [hm]
  · simp [hm]

/-! ### C1 : the RRF output characterisation -/

theorem mem_allIdsOf {lists : List (List (String × ℚ))} {id : String} :
    id ∈ allIdsOf lists ↔ ∃ L ∈ lists, id ∈ L.map Prod.fst := by
  simp [allIdsOf, List.mem_dedup, List.mem_flatten]

theorem rrfAux_mem_union {order : List String} {lists : List (List (String × ℚ))}
    {kappa top_k : Int} {p : String × ℚ}
    (horder : order.Perm (allIdsOf lists))
    (hp : p ∈ rrfAux order lists kappa top_k) :
    ∃ L ∈ lists, p.1 ∈ L.map Prod.fst := by
  have h1 : p ∈ pyStableSortDesc
      (order.map (fun id => (id, fusedScoreOf (lists.map rankMapOf) kappa id))) := by
    exact (pyslice_sublist _ _).mem hp
  have h2 := (pyStableSortDesc_perm _).mem_iff.mp h1
  rcases List.mem_map.mp h2 with ⟨id, hid, he⟩
  have : id ∈ allIdsOf lists := horder.mem_iff.mp hid
  rcases mem_allIdsOf.mp this with ⟨L, hL, hidL⟩
  exact ⟨L, hL, by rw [← he]; exact hidL⟩

theorem rrfAux_score {order : List String} {lists : List (List (String × ℚ))}
    {kappa top_k : Int} {p : String × ℚ}
    (hnd : ∀ L ∈ lists, (L.map Prod.fst).Nodup)
    (hp : p ∈ rrfAux order lists kappa top_k) :
    p.2 = rrfSpecScore lists kappa p.1 := by
  have h1 : p ∈ pyStableSortDesc
      (order.map (fun id => (id, fusedScoreOf (lists.map rankMapOf) kappa id))) :=
    (pyslice_sublist _ _).mem hp
  have h2 := (pyStableSortDesc_perm _).mem_iff.mp h1
  rcases List.mem_map.mp h2 with ⟨id, _, he⟩
  rw [← he]
  exact fusedScoreOf_spec lists kappa id hnd

theorem rrfAux_sorted (order : List String) (lists : List (List (String × ℚ)))
    (kappa top_k : Int) :
    (rrfAux order lists kappa top_k).Pairwise (fun a b => b.2 ≤ a.2) :=
  List.Pairwise.sublist (pyslice_sublist _ _) (pyStableSortDesc_sorted _)

theorem rrfAux_truncates (order : List String) (lists : List (List (String × ℚ)))
    (kappa : Int) {top_k : Int} (ht : 0 ≤ top_k)
    (horder : order.Perm (allIdsOf lists)) :
    rrfAux order lists kappa top_k =
      (rrfAux order lists kappa ((allIdsOf lists).length : Int)).take top_k.toNat := by
  unfold rrfAux
  rw [pyslice_nonneg ht, pyslice_nonneg (by positivity)]
  congr 1
  have hlen : (pyStableSortDesc
      (order.map (fun id => (id, fusedScoreOf (lists.map rankMapOf) kappa id)))).length =
      (allIdsOf lists).length := by
    rw [(pyStableSortDesc_perm _).length_eq, List.length_map, horder.length_eq]
  rw [Int.toNat_natCast, ← hlen, List.take_length]

/-- C1: for every sequence of ranked input lists (each with pairwise-distinct
ids, as a ranked list has), every nonnegative `kappa` and `top_k`, and every
enumeration `order` of the id pool (covering CPython's unspecified set
order, and in particular `reciprocal_rank_fusion`'s canonical one), the RRF
output draws its ids only from the union of ids of the input lists — an id
absent from every list never appears —, pairs each id with the sum over the
input lists containing it of `1/(kappa + rank)` with 1-based ranks, is
sorted descending by fused score, and is the `top_k`-truncation of the full
fused ranking. -/
theorem C1_rrf_characterisation (order : List String)
    (lists : List (List (String × ℚ))) (kappa top_k : Int)
    (_hk : 0 ≤ kappa) (ht : 0 ≤ top_k)
    (hnd : ∀ L ∈ lists, (L.map Prod.fst).Nodup)
    (horder : order.Perm (allIdsOf lists)) :
    reciprocal_rank_fusion lists kappa top_k =
        rrfAux (allIdsOf lists) lists kappa top_k ∧
    (∀ p ∈ rrfAux order lists kappa top_k, ∃ L ∈ lists, p.1 ∈ L.map Prod.fst) ∧
    (∀ p ∈ rrfAux order lists kappa top_k, p.2 = rrfSpecScore lists kappa p.1) ∧
    (rrfAux order lists kappa top_k).Pairwise (fun a b => b.2 ≤ a.2) ∧
    rrfAux order lists kappa top_k =
      (rrfAux order lists kappa ((allIdsOf lists).length : Int)).take top_k.toNat :=
  ⟨rfl,
   fun _ hp => rrfAux_mem_union horder hp,
   fun _ hp => rrfAux_score hnd hp,
   rrfAux_sorted order lists kappa top_k,
   rrfAux_truncates order lists kappa ht horder⟩

/-- C1 witness: the characterisation applied to the concrete input
`[[("a",5)], [("b",4),("a",3)]]`, `kappa = 60`, `top_k = 2`. -/
theorem C1_witness :
    reciprocal_rank_fusion [[("a", (5 : ℚ))], [("b", 4), ("a", 3)]] 60 2 =
        rrfAux (allIdsOf [[("a", (5 : ℚ))], [("b", 4), ("a", 3)]])
          [[("a", (5 : ℚ))], [("b", 4), ("a", 3)]] 60 2 ∧
    (∀ p ∈ rrfAux (allIdsOf [[("a", (5 : ℚ))], [("b", 4), ("a", 3)]])
        [[("a", (5 : ℚ))], [("b", 4), ("a", 3)]] 60 2,
      ∃ L ∈ [[("a", (5 : ℚ))], [("b", 4), ("a", 3)]], p.1 ∈ L.map Prod.fst) ∧
    (∀ p ∈ rrfAux (allIdsOf [[("a", (5 : ℚ))], [("b", 4), ("a", 3)]])
        [[("a", (5 : ℚ))], [("b", 4), ("a", 3)]] 60 2,
      p.2 = rrfSpecScore [[("a", (5 : ℚ))], [("b", 4), ("a", 3)]] 60 p.1) ∧
    (rrfAux (allIdsOf [[("a", (5 : ℚ))], [("b", 4), ("a", 3)]])
        [[("a", (5 : ℚ))], [("b", 4), ("a", 3)]] 60 2).Pairwise
      (fun a b => b.2 ≤ a.2) ∧
    rrfAux (allIdsOf [[("a", (5 : ℚ))], [("b", 4), ("a", 3)]])
        [[("a", (5 : ℚ))], [("b", 4), ("a", 3)]] 60 2 =
      (rrfAux (allIdsOf [[("a", (5 : ℚ))], [("b", 4), ("a", 3)]])
          [[("a", (5 : ℚ))], [("b", 4), ("a", 3)]] 60
          ((allIdsOf [[("a", (5 : ℚ))], [("b", 4), ("a", 3)]]).length : Int)).take
        (2 : Int).toNat :=
  C1_rrf_characterisation _ _ 60 2 (by decide) (by decide) (by decide)
    (List.Perm.refl _)

/-! ### C2 : the literal tie-break scenario -/

/-- The literal input lists of the tie-break scenario:
semantic `[(x,10),(y,5),(z,1)]` and lexical `[(y,9),(x,3)]`. -/
def c2lists : List (List (String × ℚ)) :=
  [[("x", 10), ("y", 5), ("z", 1)], [("y", 9), ("x", 3)]]

/-- C2 counterexample: `x` and `y` tie at `1/61 + 1/62 = 123/3782`, and the
code breaks the tie only by the enumeration order of the Python id set —
under the admissible enumeration `["y","x","z"]` of the pool, the fused
output is `y, x, z`, not the claimed `x, y, z`; no lowest-minimum-rank
tie-break exists in the code. -/
theorem C2_counterexample :
    (["y", "x", "z"] : List String).Perm (allIdsOf c2lists) ∧
    rrfAux ["y", "x", "z"] c2lists 60 3 =
      [("y", 123/3782), ("x", 123/3782), ("z", 1/63)] ∧
    (rrfAux ["y", "x", "z"] c2lists 60 3).map Prod.fst ≠ ["x", "y", "z"] := by
  refine ⟨by decide, ?_, ?_⟩ <;>
    (simp [rrfAux, c2lists, pyslice, pyStableSortDesc, withIdx, pairRel,
      fusedScoreOf, dictLookup, rankMapOf, rankMapFrom];
     try norm_num [pairRel];
     try decide)

/-- C2 amended: for the literal input with `kappa = 60`, `top_k = 3`, the
fused scores of `x` and `y` are equal, and for every enumeration of the id
pool the output is either `x, y, z` or `y, x, z` — which of the two depends
only on the unspecified set-iteration order; `z` is always last. -/
theorem C2_amended (order : List String)
    (horder : order.Perm (allIdsOf c2lists)) :
    rrfSpecScore c2lists 60 "x" = rrfSpecScore c2lists 60 "y" ∧
    (rrfAux order c2lists 60 3 =
        [("x", 123/3782), ("y", 123/3782), ("z", 1/63)] ∨
      rrfAux order c2lists 60 3 =
        [("y", 123/3782), ("x", 123/3782), ("z", 1/63)]) := by
  refine ⟨by simp [rrfSpecScore, c2lists,
    show List.indexOf "x" ["y", "x"] = 1 from rfl,
    show List.indexOf "y" ["x", "y", "z"] = 1 from rfl]; norm_num, ?_⟩
  have h1 : order ∈ List.permutations' (allIdsOf c2lists) :=
    List.mem_permutations'.mpr horder
  have h2 : List.permutations' (allIdsOf c2lists) =
      [["z", "y", "x"], ["y", "z", "x"], ["y", "x", "z"], ["z", "x", "y"],
        ["x", "z", "y"], ["x", "y", "z"]] := by decide
  rw [h2] at h1
  fin_cases h1 <;>
    (simp [rrfAux, c2lists, pyslice, pyStableSortDesc, withIdx, pairRel,
      fusedScoreOf, dictLookup, rankMapOf, rankMapFrom];
     norm_num [pairRel])

/-- C2 witness: the amended statement applied at the concrete enumeration
`["x","y","z"]` of the id pool. -/
theorem C2_witness :
    rrfSpecScore c2lists 60 "x" = rrfSpecScore c2lists 60 "y" ∧
    (rrfAux ["x", "y", "z"] c2lists 60 3 =
        [("x", 123/3782), ("y", 123/3782), ("z", 1/63)] ∨
      rrfAux ["x", "y", "z"] c2lists 60 3 =
        [("y", 123/3782), ("x", 123/3782), ("z", 1/63)]) :=
  C2_amended ["x", "y", "z"] (by decide)

/-! ### C3 : hybrid with an unbuilt lexical index degrades to semantic -/

theorem search_unbuilt {st : LexState} (h : st.bm25 = none)
    (query : String) (top_k : Int) :
    BM25LexicalIndex.search st query top_k = [] := by
  simp [BM25LexicalIndex.search, h]

theorem fusedScoreOf_single {L : List (String × ℚ)}
    (hnd : (L.map Prod.fst).Nodup) {id : String}
    (hm : id ∈ L.map Prod.fst) (kappa : Int) :
    fusedScoreOf ([L, []].map rankMapOf) kappa id =
      1 / ((kappa : ℚ) + (((L.map Prod.fst).indexOf id + 1 : Nat) : ℚ)) := by
  rw [fusedScoreOf_spec [L, []] kappa id ?hnd]
  case hnd =>
    intro L' hL'
    rcases List.mem_cons.mp hL' with h | h
    · exact h ▸ hnd
    · simp only [List.mem_singleton] at h
      simp [h]
  simp [rrfSpecScore, hm]

theorem rrf_single_list {L : List (String × ℚ)} {kappa : Int} (hk : 0 ≤ kappa)
    (hnd : (L.map Prod.fst).Nodup) {order : List String}
    (horder : order.Perm (L.map Prod.fst)) (top_k : Int) :
    rrfAux order [L, []] kappa top_k =
      pyslice top_k ((L.map Prod.fst).map
        (fun id => (id, fusedScoreOf ([L, []].map rankMapOf) kappa id))) := by
  unfold rrfAux
  dsimp only
  congr 1
  refine pyStableSortDesc_eq_of_strict (horder.map _) ?_
  rw [List.pairwise_map, List.pairwise_iff_get]
  intro i j hij
  have hmi : (L.map Prod.fst).get i ∈ L.map Prod.fst := List.get_mem _ i.1 i.2
  have hmj : (L.map Prod.fst).get j ∈ L.map Prod.fst := List.get_mem _ j.1 j.2
  simp only [fusedScoreOf_single hnd hmi kappa, fusedScoreOf_single hnd hmj kappa,
    List.get_indexOf hnd]
  have hden : (0 : ℚ) < (kappa : ℚ) + (((i : Nat) + 1 : Nat) : ℚ) := by
    have : (0 : ℚ) ≤ (kappa : ℚ) := by exact_mod_cast hk
    push_cast
    linarith
  refine one_div_lt_one_div_of_lt hden ?_
  have hij' : (((i : Nat) : ℚ)) < (((j : Nat) : ℚ)) := by exact_mod_cast hij
  push_cast
  linarith [hij']

theorem rehydrate_ids (store : List (String × Chunk))
    (pairs : List (String × ℚ)) :
    (rehydrate store pairs).map (fun r => r.id) = pairs.map Prod.fst := by
  simp [rehydrate]

/-- C3: with the Lexical Index unbuilt (so lexical search yields `[]`),
hybrid-mode search returns exactly the same ordered ids as semantic-mode
search with the same query and `top_k`, for every enumeration of the fusion
pool and with no error raised, assuming the injected semantic ranker is
prefix-consistent (its ranking at pool size `top_k` is the `top_k`-prefix of
its ranking at the widened pool size) and emits pairwise-distinct ids. -/
theorem C3_hybrid_degrades_to_semantic
    (semFn : String → Int → List (String × ℚ)) (lex : LexState)
    (store : List (String × Chunk)) (query : String) (top_k : Int)
    (order : List String)
    (hunbuilt : lex.bm25 = none) (ht : 0 ≤ top_k)
    (hpc : semFn query top_k =
      (semFn query (max top_k 20)).take top_k.toNat)
    (hnd : ((semFn query (max top_k 20)).map Prod.fst).Nodup)
    (horder : order.Perm (allIdsOf [semFn query (max top_k 20),
      BM25LexicalIndex.search lex query (max top_k 50)])) :
    (hybridSearchWithOrder semFn lex store order query top_k "hybrid").map
        (fun r => r.id) =
      (hybridSearchWithOrder semFn lex store order query top_k "semantic").map
        (fun r => r.id) := by
  have hlex : BM25LexicalIndex.search lex query (max top_k 50) = [] :=
    search_unbuilt hunbuilt _ _
  have hids : allIdsOf [semFn query (max top_k 20),
      BM25LexicalIndex.search lex query (max top_k 50)] =
      (semFn query (max top_k 20)).map Prod.fst := by
    rw [hlex]
    simp [allIdsOf, List.dedup_eq_self.mpr hnd]
  rw [hids] at horder
  have hhyb : hybridSearchWithOrder semFn lex store order query top_k "hybrid" =
      rehydrate store (rrfAux order [semFn query (max top_k 20), []] 60 top_k) := by
    unfold hybridSearchWithOrder rankedPairs
    rw [hlex]
    rfl
  rw [hhyb, rehydrate_ids]
  have hsem : hybridSearchWithOrder semFn lex store order query top_k "semantic" =
      rehydrate store (semFn query top_k) := rfl
  rw [hsem, rehydrate_ids]
  rw [rrf_single_list (by norm_num) hnd horder top_k, pyslice_map,
    pyslice_nonneg ht, List.map_map]
  have : (Prod.fst ∘ fun id =>
      (id, fusedScoreOf ([semFn query (max top_k 20), []].map rankMapOf) 60 id)) =
      fun id => id := rfl
  rw [this]
  rw [show (fun (id : String) => id) = @id String from rfl, List.map_id, hpc,
    List.map_take]

/-- A concrete prefix-consistent semantic ranker used by witnesses: the
`k`-prefix of the fixed ranking `[("a",9),("b",8)]`. -/
def semFnW : String → Int → List (String × ℚ) :=
  fun _ k => pyslice k [("a", 9), ("b", 8)]

/-- A concrete unbuilt lexical index. -/
def lexUnbuilt : LexState := ⟨none, [], [], []⟩

/-- C3 witness: the degradation equivalence applied to a concrete
prefix-consistent ranker, an unbuilt index, `query = "q"`, `top_k = 1`. -/
theorem C3_witness :
    (hybridSearchWithOrder semFnW lexUnbuilt [] ["a", "b"] "q" 1 "hybrid").map
        (fun r => r.id) =
      (hybridSearchWithOrder semFnW lexUnbuilt [] ["a", "b"] "q" 1 "semantic").map
        (fun r => r.id) :=
  C3_hybrid_degrades_to_semantic semFnW lexUnbuilt [] "q" 1 ["a", "b"] rfl
    (by decide) rfl (by decide) (by decide)

/-! ### C7 : every ranked id surfaces, with a placeholder if unregistered -/

/-- C7: in every mode, the ids of `HybridSearch.search`'s result are exactly
the ids of the ranking that mode produced — none is dropped — and any id the
chunk registry cannot resolve is returned with empty text and empty
metadata rather than failing. -/
theorem C7_every_ranked_id_surfaces
    (semFn : String → Int → List (String × ℚ)) (lex : LexState)
    (store : List (String × Chunk)) (order : List String)
    (query : String) (top_k : Int) (mode : String) :
    (hybridSearchWithOrder semFn lex store order query top_k mode).map
        (fun r => r.id) =
      (rankedPairs semFn lex order query top_k mode).map Prod.fst ∧
    ∀ r ∈ hybridSearchWithOrder semFn lex store order query top_k mode,
      dictLookup store r.id = none → r.text = "" ∧ r.metadata = [] := by
  constructor
  · exact rehydrate_ids store _
  · intro r hr
    simp only [hybridSearchWithOrder, rehydrate, List.mem_map] at hr
    rcases hr with ⟨p, _, he⟩
    subst he
    dsimp only
    intro hnone
    rw [hnone]
    exact ⟨rfl, rfl⟩

/-- A concrete one-hit semantic ranker for witnesses. -/
def semFnOne : String → Int → List (String × ℚ) := fun _ _ => [("a", 1)]

/-- C7 witness: the invariant at a concrete ranker whose id `"a"` is not in
the (empty) registry. -/
theorem C7_witness :
    (hybridSearchWithOrder semFnOne lexUnbuilt [] [] "q" 1 "semantic").map
        (fun r => r.id) =
      (rankedPairs semFnOne lexUnbuilt [] "q" 1 "semantic").map Prod.fst ∧
    ∀ r ∈ hybridSearchWithOrder semFnOne lexUnbuilt [] [] "q" 1 "semantic",
      dictLookup ([] : List (String × Chunk)) r.id = none →
        r.text = "" ∧ r.metadata = [] :=
  C7_every_ranked_id_surfaces semFnOne lexUnbuilt [] [] "q" 1 "semantic"

/-! ### C5 / C10 : BM25 lexical search ordering, ties and length -/

theorem rankIndices_length (scores : List ℚ) :
    (rankIndices scores).length = scores.length := by
  rw [(rankIndices_perm scores).length_eq, List.length_range]

theorem rankIndices_nodup (scores : List ℚ) : (rankIndices scores).Nodup :=
  (rankIndices_perm scores).nodup_iff.mpr (List.nodup_range _)

/-- C5: on a built index, `search` returns the stably-ranked indices sliced
to `top_k` and read back as `(id, score)` pairs; the index ranking is a
permutation of all corpus positions, bi-sorted: strictly by descending
score, and on equal scores by ascending original corpus index; hence the
output is descending in score and the selected indices beat every
unselected one — a deterministic function of corpus and query. -/
theorem C5_lexical_search_ranking
    (st : LexState) (model : BM25Model) (query : String) (top_k : Int)
    (hb : st.bm25 = some model)
    (hlen : (model.scoresOf (tokenize query)).length = st.chunks.length)
    (ht : 0 ≤ top_k) :
    BM25LexicalIndex.search st query top_k =
      ((rankIndices (model.scoresOf (tokenize query))).take top_k.toNat).map
        (fun i => ((st.chunks.getD i ⟨"", "", []⟩).id,
          (model.scoresOf (tokenize query)).getD i 0)) ∧
    (rankIndices (model.scoresOf (tokenize query))).Perm
      (List.range st.chunks.length) ∧
    (rankIndices (model.scoresOf (tokenize query))).Pairwise (fun i j =>
      (model.scoresOf (tokenize query)).getD j 0 <
          (model.scoresOf (tokenize query)).getD i 0 ∨
        ((model.scoresOf (tokenize query)).getD i 0 =
            (model.scoresOf (tokenize query)).getD j 0 ∧ i < j)) ∧
    (BM25LexicalIndex.search st query top_k).Pairwise (fun a b => b.2 ≤ a.2) ∧
    ∀ i ∈ (rankIndices (model.scoresOf (tokenize query))).take top_k.toNat,
      ∀ j ∈ (rankIndices (model.scoresOf (tokenize query))).drop top_k.toNat,
        (model.scoresOf (tokenize query)).getD j 0 ≤
          (model.scoresOf (tokenize query)).getD i 0 := by
  set scores := model.scoresOf (tokenize query) with hscores
  have hsearch : BM25LexicalIndex.search st query top_k =
      ((rankIndices scores).take top_k.toNat).map
        (fun i => ((st.chunks.getD i ⟨"", "", []⟩).id, scores.getD i 0)) := by
    simp [BM25LexicalIndex.search, hb, pyslice_nonneg ht, hscores]
  have hperm : (rankIndices scores).Perm (List.range st.chunks.length) := by
    rw [← hlen]
    exact rankIndices_perm scores
  have hsortedRel := rankIndices_sorted scores
  have hstrict : (rankIndices scores).Pairwise (fun i j =>
      scores.getD j 0 < scores.getD i 0 ∨
        (scores.getD i 0 = scores.getD j 0 ∧ i < j)) := by
    have hne : (rankIndices scores).Pairwise (fun i j => i ≠ j) :=
      rankIndices_nodup scores
    refine (hsortedRel.and hne).imp ?_
    rintro i j ⟨hrel, hne'⟩
    rcases hrel with h | ⟨he, hle⟩
    · exact Or.inl h
    · exact Or.inr ⟨he, lt_of_le_of_ne hle hne'⟩
  refine ⟨hsearch, hperm, hstrict, ?_, ?_⟩
  · rw [hsearch]
    refine List.Pairwise.map _ ?_
      (List.Pairwise.sublist (List.take_sublist _ _) hsortedRel)
    intro i j hij
    rcases hij with h | ⟨he, _⟩
    · exact le_of_lt h
    · exact le_of_eq he.symm
  · intro i hi j hj
    have := (List.pairwise_append.mp
      (by rw [List.take_append_drop top_k.toNat (rankIndices scores)]
          exact hsortedRel)).2.2 i hi j hj
    rcases this with h | ⟨he, _⟩
    · exact le_of_lt h
    · exact le_of_eq he.symm

/-- C10: on a built index, `search` returns exactly `min top_k n` hits —
zero-scoring chunks are kept to fill the list, nothing is filtered. -/
theorem C10_search_fills_to_min
    (st : LexState) (model : BM25Model) (query : String) (top_k : Int)
    (hb : st.bm25 = some model)
    (hlen : (model.scoresOf (tokenize query)).length = st.chunks.length)
    (ht : 0 ≤ top_k) :
    (BM25LexicalIndex.search st query top_k).length =
      min top_k.toNat st.chunks.length := by
  simp [BM25LexicalIndex.search, hb, pyslice_nonneg ht, List.length_take,
    rankIndices_length, hlen]

/-- A concrete fitted-model shape matching the library: one score per
corpus document (all zero here, as for a query sharing no token). -/
def constFit : List (List String) → BM25Model :=
  fun corpus => ⟨fun _ => corpus.map (fun _ => 0)⟩

/-- A concrete built two-chunk index used by witnesses. -/
def lexTwo : LexState :=
  ⟨some ⟨fun _ => [0, 1]⟩, [["alpha"], ["beta"]],
    [⟨"c1", "alpha", []⟩, ⟨"c2", "beta", []⟩], [("c1", 0), ("c2", 1)]⟩

/-- C5 witness: the ranking characterisation on the concrete two-chunk
index with scores `[0, 1]`, `top_k = 1`. -/
theorem C5_witness :
    BM25LexicalIndex.search lexTwo "q" 1 =
      ((rankIndices ([0, 1] : List ℚ)).take (1 : Int).toNat).map
        (fun i => ((lexTwo.chunks.getD i ⟨"", "", []⟩).id,
          ([0, 1] : List ℚ).getD i 0)) ∧
    (rankIndices ([0, 1] : List ℚ)).Perm (List.range lexTwo.chunks.length) ∧
    (rankIndices ([0, 1] : List ℚ)).Pairwise (fun i j =>
      ([0, 1] : List ℚ).getD j 0 < ([0, 1] : List ℚ).getD i 0 ∨
        (([0, 1] : List ℚ).getD i 0 = ([0, 1] : List ℚ).getD j 0 ∧ i < j)) ∧
    (BM25LexicalIndex.search lexTwo "q" 1).Pairwise (fun a b => b.2 ≤ a.2) ∧
    ∀ i ∈ (rankIndices ([0, 1] : List ℚ)).take (1 : Int).toNat,
      ∀ j ∈ (rankIndices ([0, 1] : List ℚ)).drop (1 : Int).toNat,
        ([0, 1] : List ℚ).getD j 0 ≤ ([0, 1] : List ℚ).getD i 0 :=
  C5_lexical_search_ranking lexTwo ⟨fun _ => [0, 1]⟩ "q" 1 rfl rfl (by decide)

/-- C10 witness: the concrete two-chunk index returns `min 1 2 = 1` hit. -/
theorem C10_witness :
    (BM25LexicalIndex.search lexTwo "q" 1).length =
      min (1 : Int).toNat lexTwo.chunks.length :=
  C10_search_fills_to_min lexTwo ⟨fun _ => [0, 1]⟩ "q" 1 rfl rfl (by decide)

/-! ### C6 : persist / load round-trip -/

/-- C6: a state obtained by `build`, snapshotted, and re-`load`ed is equal
to the built state — the BM25 model is re-fitted from the identical stored
token corpus — so `search` results coincide for every query and `top_k`. -/
theorem C6_snapshot_roundtrip (fit : List (List String) → BM25Model)
    (chunks : List Chunk) (st st' : LexState)
    (h1 : BM25LexicalIndex.build fit chunks = Except.ok st)
    (h2 : BM25LexicalIndex.load fit (BM25LexicalIndex.persistOf st) =
      Except.ok st') :
    st' = st ∧ ∀ query top_k,
      BM25LexicalIndex.search st' query top_k =
        BM25LexicalIndex.search st query top_k := by
  unfold BM25LexicalIndex.build bm25Okapi at h1
  dsimp only at h1
  by_cases he : (chunks.map (fun c => tokenize c.text)).isEmpty
  · rw [if_pos he] at h1
    simp [Except.map] at h1
  · rw [if_neg he] at h1
    simp only [Except.map, Except.ok.injEq] at h1
    subst h1
    unfold BM25LexicalIndex.load BM25LexicalIndex.persistOf bm25Okapi at h2
    dsimp only at h2
    simp only [if_neg he, Except.map, Except.ok.injEq] at h2
    subst h2
    exact ⟨rfl, fun _ _ => rfl⟩

/-- C6 witness: round-trip on the concrete one-chunk corpus
`[⟨"a", "", []⟩]` fitted by `constFit`. -/
theorem C6_witness :
    (⟨some (constFit [[]]), [[]], [⟨"a", "", []⟩], [("a", 0)]⟩ : LexState) =
      (⟨some (constFit [[]]), [[]], [⟨"a", "", []⟩], [("a", 0)]⟩ : LexState) ∧
    ∀ query top_k,
      BM25LexicalIndex.search
          (⟨some (constFit [[]]), [[]], [⟨"a", "", []⟩], [("a", 0)]⟩ : LexState)
          query top_k =
        BM25LexicalIndex.search
          (⟨some (constFit [[]]), [[]], [⟨"a", "", []⟩], [("a", 0)]⟩ : LexState)
          query top_k :=
  C6_snapshot_roundtrip constFit [⟨"a", "", []⟩]
    ⟨some (constFit [[]]), [[]], [⟨"a", "", []⟩], [("a", 0)]⟩
    ⟨some (constFit [[]]), [[]], [⟨"a", "", []⟩], [("a", 0)]⟩ (by rfl) (by rfl)

/-! ### C8 : unbuilt or empty index -/

/-- C8 amended: an unbuilt index searches to `[]` without failing, and a
built index holding zero chunks searches to `[]` without failing; but
`build` over an empty chunk list raises `ZeroDivisionError` inside the
`BM25Okapi` constructor (division by the corpus size), so "build empty,
then search" never reaches the search. -/
theorem C8_amended (lex : LexState) (query : String) (top_k : Int) :
    (lex.bm25 = none → BM25LexicalIndex.search lex query top_k = []) ∧
    (∀ m, lex.bm25 = some m → lex.chunks = [] →
      (m.scoresOf (tokenize query)).length = lex.chunks.length →
      BM25LexicalIndex.search lex query top_k = []) ∧
    ∀ fit, BM25LexicalIndex.build fit [] =
      Except.error "ZeroDivisionError: division by zero" := by
  refine ⟨fun h => search_unbuilt h query top_k, ?_, fun fit => rfl⟩
  intro m hb hchunks hlen
  have hs : m.scoresOf (tokenize query) = [] := by
    rw [hchunks] at hlen
    exact List.length_eq_zero.mp hlen
  simp [BM25LexicalIndex.search, hb, hs, rankIndices, List.range_zero,
    pyslice]

/-- C8 counterexample: building over the empty chunk list is the
`ZeroDivisionError` branch of the BM25 constructor, contradicting the
claim that building over an empty chunk list and then searching raises no
error. -/
theorem C8_counterexample :
    BM25LexicalIndex.build constFit ([] : List Chunk) =
      Except.error "ZeroDivisionError: division by zero" := rfl

/-- C8 witness: the amended statement instantiated — an unbuilt index and a
zero-chunk built index both search to `[]`, and `build` on `[]` errors. -/
theorem C8_witness :
    BM25LexicalIndex.search lexUnbuilt "q" 5 = [] ∧
    BM25LexicalIndex.search (⟨some ⟨fun _ => []⟩, [], [], []⟩ : LexState)
        "q" 5 = [] ∧
    BM25LexicalIndex.build constFit ([] : List Chunk) =
      Except.error "ZeroDivisionError: division by zero" :=
  ⟨(C8_amended lexUnbuilt "q" 5).1 rfl,
   (C8_amended (⟨some ⟨fun _ => []⟩, [], [], []⟩ : LexState) "q" 5).2.1
     ⟨fun _ => []⟩ rfl rfl rfl,
   (C8_amended lexUnbuilt "q" 5).2.2 constFit⟩

/-! ### C4 : semantic adapter degraded states -/

/-- C4 counterexample: with a configured client (API key and index name
present) but an unavailable embedder, `semantic_search` does not return
`[]` — `_embed` raises `RuntimeError`, which propagates. -/
theorem C4_counterexample :
    semantic_search none (fun _ _ _ _ => []) ⟨some "key", "idx", "ns"⟩
        "q" 5 none none =
      Except.error
        "SentenceTransformer not available. Please install or wire your embedder." :=
  rfl

/-- C4 amended: `semantic_search` returns `[]` as a normal non-error result
whenever the vector-database client is unconfigured (falsy API key) or the
resolved index name is falsy — regardless of the embedder; but an
unavailable embedder alone (client configured) raises instead. -/
theorem C4_amended (embedder : Option (String → List ℚ))
    (queryFn : String → String → List ℚ → Int → List (String × ℚ))
    (st : SemSettings) (query : String) (top_k : Int)
    (index_name namespace_ : Option String)
    (h : optStrFalsy st.apiKey = true ∨ resolvedIndexName st index_name = "") :
    semantic_search embedder queryFn st query top_k index_name namespace_ =
      Except.ok [] := by
  rcases h with h | h
  · simp [semantic_search, make_client, h]
  · by_cases hc : optStrFalsy st.apiKey = true
    · simp [semantic_search, make_client, hc]
    · simp [semantic_search, make_client, hc, h]

/-- C4 witness: a missing API key, and separately a configured key with an
empty index name, both yield `Except.ok []`. -/
theorem C4_witness :
    semantic_search none (fun _ _ _ _ => []) ⟨none, "idx", "ns"⟩ "q" 5
        none none = Except.ok [] ∧
    semantic_search (some (fun _ => [])) (fun _ _ _ _ => [])
        ⟨some "key", "", "ns"⟩ "q" 5 none none = Except.ok [] :=
  ⟨C4_amended none (fun _ _ _ _ => []) ⟨none, "idx", "ns"⟩ "q" 5 none none
      (Or.inl rfl),
   C4_amended (some (fun _ => [])) (fun _ _ _ _ => []) ⟨some "key", "", "ns"⟩
      "q" 5 none none (Or.inr rfl)⟩

/-! ### C9 : the retrieval boundary and malformed input -/

/-- C9 amended: `retrieve` returns `[]` on an empty query in every mode and
state; but `top_k` is NOT clamped — it is forwarded unchanged to
`HybridSearch.search`, whose Python slicing treats `0` and negative values
literally. -/
theorem C9_amended (semFn : String → Int → List (String × ℚ))
    (registered : List Chunk) (lex : LexState)
    (store : List (String × Chunk)) :
    (∀ hyb top_k mode, retrieve semFn hyb registered "" top_k mode = []) ∧
    (∀ query top_k mode, query ≠ "" →
      retrieve semFn (some ⟨lex, store⟩) registered query top_k mode =
        HybridSearch.search semFn lex store query top_k mode) := by
  constructor
  · intro hyb tk mode
    simp [retrieve]
  · intro q tk mode hq
    simp [retrieve, hq]

/-- C9 counterexample: no clamping happens — on a two-chunk corpus in
lexical mode, `top_k = 0` yields the empty list, while every positive
`top_k` yields a nonempty result; so the `top_k = 0` call matches no
positive-`top_k` call, contradicting "clamped to a sane positive
default". -/
theorem C9_counterexample :
    retrieve semFnOne (some ⟨lexTwo, []⟩) [] "q" 0 "lexical" = [] ∧
    ∀ top_k : Int, 1 ≤ top_k →
      retrieve semFnOne (some ⟨lexTwo, []⟩) [] "q" top_k "lexical" ≠ [] := by
  constructor
  · rfl
  · intro tk htk
    have h1 : rankIndices ([0, 1] : List ℚ) = [1, 0] := by decide
    have ht0 : 0 ≤ tk := le_trans (by decide) htk
    obtain ⟨m, hm⟩ : ∃ m, tk.toNat = m + 1 := ⟨tk.toNat - 1, by omega⟩
    simp [retrieve, HybridSearch.search, hybridSearchWithOrder, rankedPairs,
      BM25LexicalIndex.search, lexTwo, h1, pyslice_nonneg ht0, rehydrate, hm]

/-- C9 witness: the amended statement applied to the concrete two-chunk
state: empty query yields `[]`, and a `top_k = 0` call is forwarded
untouched. -/
theorem C9_witness :
    retrieve semFnOne (some ⟨lexTwo, []⟩) [] "" 5 "hybrid" = [] ∧
    retrieve semFnOne (some ⟨lexTwo, []⟩) [] "q" 0 "lexical" =
      HybridSearch.search semFnOne lexTwo [] "q" 0 "lexical" :=
  ⟨(C9_amended semFnOne [] lexTwo []).1 (some ⟨lexTwo, []⟩) 5 "hybrid",
   (C9_amended semFnOne [] lexTwo []).2 "q" 0 "lexical" (by decide)⟩

end RAG
